import Mathlib

/- Verification of the sequential stock-allocation core of
   product_sales_forecasting (src/app.py).

   The embedding models:
   - parse_shelf_life (app.py lines 7-22), with Python text modelled as
     Option String (none for NaN / non-string cells);
   - the sequential allocation loop (app.py lines 95-136): per product,
     orders sorted by forecast ship date are replayed against one running
     balance, emitting one annotated result row per order. -/

namespace SalesForecast

/-- Character-list prefix test: `listPre p l` holds when `p` is an initial
segment of `l`.  Auxiliary for the substring test below. -/
def listPre : List Char → List Char → Bool
  | [], _ => true
  | _ :: _, [] => false
  | a :: p, b :: l => a == b && listPre p l

/-- Contiguous-occurrence test: `listSub p l` is true when the character list
`p` occurs contiguously inside `l`.  Models Python's `pat in text` on strings
(the empty pattern occurs in every string, as in Python). -/
def listSub (p : List Char) : List Char → Bool
  | [] => p.isEmpty
  | b :: l => listPre p (b :: l) || listSub p l

/-- String-level substring test: models the Python expression `pat in s`. -/
def containsSub (s pat : String) : Bool := listSub pat.data s.data

/-- Models Python `text.lower()` (character-wise lowercasing). -/
def lowerStr (s : String) : String := String.mk (s.data.map Char.toLower)

/-- `parse_shelf_life` from app.py lines 7-22.  The input is `none` exactly
when the source's `pd.isna(text) or not isinstance(text, str)` guard fires
(NaN or non-string cell); otherwise it is the cell's text. -/
def parse_shelf_life (text : Option String) : Nat :=
  match text with
  | none => 6
  | some t =>
    let text_lower := lowerStr t
    if containsSub text_lower "12 months" || containsSub text_lower "1 year"
        || containsSub text_lower "not less than 12 months" then 12
    else if containsSub text_lower "6 months" then 6
    else if containsSub text_lower "3 months" then 3
    else 6

/-- The parsing cascade exactly as the spec's words describe it (C6): 12 if
the lowercased text contains "12 months" or "1 year" (checked first), else 6
if it contains "6 months", else 3 if it contains "3 months", else 6; missing
input yields 6.  Stated separately so it can be compared with the source
function `parse_shelf_life`, whose first branch carries a redundant extra
disjunct. -/
def parse_shelf_life_spec (text : Option String) : Nat :=
  match text with
  | none => 6
  | some t =>
    let text_lower := lowerStr t
    if containsSub text_lower "12 months" || containsSub text_lower "1 year" then 12
    else if containsSub text_lower "6 months" then 6
    else if containsSub text_lower "3 months" then 3
    else 6

/-- Calendar date, modelling a pandas Timestamp at day granularity. -/
structure Date where
  year : Int
  month : Int
  day : Int
deriving DecidableEq

/-- Total order on dates (year, then month, then day), modelling pandas
datetime comparison. -/
def dateLE (a b : Date) : Bool :=
  decide (a.year < b.year ∨ (a.year = b.year ∧
    (a.month < b.month ∨ (a.month = b.month ∧ a.day ≤ b.day))))

/-- Number of days in a month (Gregorian), used to clamp the day when adding
months. -/
def daysInMonth (y m : Int) : Int :=
  if m = 2 then (if y % 4 = 0 ∧ (y % 100 ≠ 0 ∨ y % 400 = 0) then 29 else 28)
  else if m = 4 ∨ m = 6 ∨ m = 9 ∨ m = 11 then 30
  else 31

/-- Calendar-month addition with day clamped to the month end, modelling
`pd.DateOffset(months=m)` as used at app.py line 106. -/
def addMonths (d : Date) (m : Nat) : Date :=
  let t : Int := d.month - 1 + m
  let y := d.year + t / 12
  let mo := t % 12 + 1
  { year := y, month := mo, day := min d.day (daysInMonth y mo) }

/-- One row of `consolidated_stock` (app.py lines 60-64): per product, the
summed available quantity and the earliest expiration date (absent when the
group's min over expirations is NaT). -/
structure StockPosition where
  productId : String
  availableQuantity : Int
  earliestExpiration : Option Date
deriving DecidableEq

/-- One row of `forecasted_orders_with_shelf_life` (app.py lines 87-93):
a forecast order with its customer's shelf-life requirement already merged
in (the merge's fillna(6) has been applied upstream of the loop). -/
structure ForecastOrder where
  productId : String
  customerId : String
  shipDate : Date
  forecastedQty : Int
  minShelfLifeMonths : Nat
deriving DecidableEq

/-- The four fulfillment verdicts; the source encodes them as the strings
"Yes", "No (Validity)", "No (Quantity)", "No (Quantity & Validity)"
(app.py lines 113, 117, 120, 124). -/
inductive AllocStatus where
  | FULFILLED
  | INSUFFICIENT_VALIDITY
  | INSUFFICIENT_QTY
  | INSUFFICIENT_QTY_AND_VALIDITY
deriving DecidableEq

/-- One output row appended to `sequential_analysis_results`
(app.py lines 128-134): the order's own fields plus the initial stock,
stock expiration, status, missing quantity and remaining balance. -/
structure AllocationResult where
  productId : String
  customerId : String
  shipDate : Date
  forecastedQty : Int
  minShelfLifeMonths : Nat
  initialStockQuantity : Int
  stockExpiration : Option Date
  status : AllocStatus
  missingQty : Int
  remainingStockAfterOrder : Int
deriving DecidableEq

/-- `is_stock_valid_for_order` (app.py lines 106 and 109): the stock
expiration is present and is at least the forecast ship date plus the
customer's minimum shelf life in months. -/
def stockValid (expiry : Option Date) (o : ForecastOrder) : Bool :=
  match expiry with
  | none => false
  | some e => dateLE (addMonths o.shipDate o.minShelfLifeMonths) e

/-- The balance update of one loop iteration (app.py lines 111-126): the new
value of `current_available_qty` after processing one order at balance
`bal`. -/
def nextBalance (expiry : Option Date) (bal : Int) (o : ForecastOrder) : Int :=
  if bal ≥ o.forecastedQty then
    if stockValid expiry o then bal - o.forecastedQty else bal
  else 0

/-- The result row of one loop iteration (app.py lines 107-134) at pre-order
balance `bal`: status and missing quantity follow the source's if/else tree,
and the recorded remaining stock is the post-order balance. -/
def allocRow (initQty : Int) (expiry : Option Date) (bal : Int)
    (o : ForecastOrder) : AllocationResult :=
  { productId := o.productId
    customerId := o.customerId
    shipDate := o.shipDate
    forecastedQty := o.forecastedQty
    minShelfLifeMonths := o.minShelfLifeMonths
    initialStockQuantity := initQty
    stockExpiration := expiry
    status :=
      if bal ≥ o.forecastedQty then
        if stockValid expiry o then AllocStatus.FULFILLED
        else AllocStatus.INSUFFICIENT_VALIDITY
      else
        if stockValid expiry o then AllocStatus.INSUFFICIENT_QTY
        else AllocStatus.INSUFFICIENT_QTY_AND_VALIDITY
    missingQty :=
      if bal ≥ o.forecastedQty then
        if stockValid expiry o then 0 else o.forecastedQty
      else
        if stockValid expiry o then o.forecastedQty - bal else o.forecastedQty
    remainingStockAfterOrder := nextBalance expiry bal o }

/-- The inner loop of app.py lines 102-134: replay the (already sorted)
orders against the running balance, emitting one result row per order. -/
def allocReplay (initQty : Int) (expiry : Option Date) :
    Int → List ForecastOrder → List AllocationResult
  | _, [] => []
  | bal, o :: rest =>
      allocRow initQty expiry bal o ::
        allocReplay initQty expiry (nextBalance expiry bal o) rest

/-- The running balance after replaying a list of orders from balance
`bal` (the value of `current_available_qty` after the loop prefix). -/
def balanceAfter (expiry : Option Date) : Int → List ForecastOrder → Int
  | bal, [] => bal
  | bal, o :: rest => balanceAfter expiry (nextBalance expiry bal o) rest

/-- One iteration of the outer product loop (app.py lines 96-134): look up
the product's consolidated stock row (balance 0 and absent expiry when there
is none, lines 98-99), sort the product's orders by forecast ship date
(line 100), and replay them. -/
def allocProduct (consolidated : List StockPosition) (productName : String)
    (orders : List ForecastOrder) : List AllocationResult :=
  let info := consolidated.find? (fun s => s.productId == productName)
  let initQty := match info with
    | some s => s.availableQuantity
    | none => 0
  let expiry := match info with
    | some s => s.earliestExpiration
    | none => none
  allocReplay initQty expiry initQty
    (orders.mergeSort (fun a b => dateLE a.shipDate b.shipDate))

/-- The distinct product names of the forecast orders, in sorted order:
the group keys of `groupby('Item Description')` at app.py line 96. -/
def productKeys (orders : List ForecastOrder) : List String :=
  ((orders.map (fun o => o.productId)).dedup).mergeSort
    (fun a b => !(decide (b < a)))

/-- The whole sequential analysis (app.py lines 95-136): concatenate the
per-product ledgers over the grouped forecast orders. -/
def runEngine (consolidated : List StockPosition)
    (orders : List ForecastOrder) : List AllocationResult :=
  (productKeys orders).flatMap
    (fun p => allocProduct consolidated p
      (orders.filter (fun o => o.productId == p)))

/-- Projection of a result row back onto the forecast-order fields it copied
(`row_result = row.copy()`, app.py line 128). -/
def resOrder (r : AllocationResult) : ForecastOrder :=
  { productId := r.productId
    customerId := r.customerId
    shipDate := r.shipDate
    forecastedQty := r.forecastedQty
    minShelfLifeMonths := r.minShelfLifeMonths }

/-- Sum over a ledger of the per-order deductions (pre-order balance minus
post-order balance), threading the recorded remaining balances from the
given initial balance. -/
def ledgerDeductions : Int → List AllocationResult → Int
  | _, [] => 0
  | bal, r :: rest =>
      (bal - r.remainingStockAfterOrder) +
        ledgerDeductions r.remainingStockAfterOrder rest

/-! ### Lemmas about the substring test -/

theorem listPre_iff (p : List Char) : ∀ l, listPre p l = true ↔ ∃ t, l = p ++ t := by
  induction p with
  | nil => intro l; simp [listPre]
  | cons a p ih =>
    intro l
    cases l with
    | nil => simp [listPre]
    | cons b l =>
      simp only [listPre, Bool.and_eq_true, beq_iff_eq, ih, List.cons_append]
      constructor
      · rintro ⟨rfl, t, rfl⟩
        exact ⟨t, rfl⟩
      · rintro ⟨t, ht⟩
        injection ht with h1 h2
        exact ⟨h1.symm, t, h2⟩

theorem listSub_iff (p : List Char) : ∀ l, listSub p l = true ↔ ∃ s t, l = s ++ p ++ t := by
  intro l
  induction l with
  | nil =>
    simp only [listSub, List.isEmpty_iff]
    constructor
    · rintro rfl
      exact ⟨[], [], rfl⟩
    · rintro ⟨s, t, h⟩
      rcases s with _ | ⟨c, s⟩
      · rcases p with _ | ⟨c, p⟩
        · rfl
        · simp at h
      · simp at h
  | cons b l ih =>
    simp only [listSub, Bool.or_eq_true, listPre_iff, ih]
    constructor
    · rintro (⟨t, ht⟩ | ⟨s, t, ht⟩)
      · exact ⟨[], t, by simpa using ht⟩
      · exact ⟨b :: s, t, by simp [ht]⟩
    · rintro ⟨s, t, ht⟩
      rcases s with _ | ⟨c, s⟩
      · exact Or.inl ⟨t, by simpa using ht⟩
      · simp only [List.cons_append] at ht
        injection ht with h1 h2
        exact Or.inr ⟨s, t, h2⟩

theorem listSub_trans {p q l : List Char} (h1 : listSub p q = true)
    (h2 : listSub q l = true) : listSub p l = true := by
  rw [listSub_iff] at h1 h2 ⊢
  obtain ⟨u, v, rfl⟩ := h1
  obtain ⟨s, t, rfl⟩ := h2
  exact ⟨s ++ u, v ++ t, by simp⟩

/-! ### Lemmas about the allocation loop -/

theorem length_allocReplay (q : Int) (e : Option Date) (l : List ForecastOrder) :
    ∀ b, (allocReplay q e b l).length = l.length := by
  induction l with
  | nil => intro b; rfl
  | cons o rest ih => intro b; simp [allocReplay, ih]

theorem balanceAfter_append (e : Option Date) (l1 l2 : List ForecastOrder) :
    ∀ b, balanceAfter e b (l1 ++ l2) = balanceAfter e (balanceAfter e b l1) l2 := by
  induction l1 with
  | nil => intro b; rfl
  | cons o rest ih => intro b; simp [balanceAfter, ih]

theorem allocReplay_getElem (q : Int) (e : Option Date)
    (l : List ForecastOrder) : ∀ (b : Int) (i : Nat) (hi : i < l.length)
    (h2 : i < (allocReplay q e b l).length),
    (allocReplay q e b l)[i] =
      allocRow q e (balanceAfter e b (l.take i)) l[i] := by
  induction l with
  | nil => intro b i hi h2; simp at hi
  | cons o rest ih =>
    intro b i hi h2
    cases i with
    | zero => rfl
    | succ j =>
      have hj : j < rest.length := by simpa using hi
      have hj2 : j < (allocReplay q e (nextBalance e b o) rest).length := by
        rw [length_allocReplay]; exact hj
      simpa [allocReplay, balanceAfter, List.take_succ_cons] using
        ih (nextBalance e b o) j hj hj2

theorem balanceAfter_take_succ (e : Option Date) (b : Int)
    (l : List ForecastOrder) (i : Nat) (hi : i < l.length) :
    balanceAfter e b (l.take (i + 1)) =
      nextBalance e (balanceAfter e b (l.take i)) l[i] := by
  rw [List.take_succ, List.getElem?_eq_getElem hi, balanceAfter_append]
  rfl

theorem allocReplay_remaining (q : Int) (e : Option Date) (b : Int)
    (l : List ForecastOrder) (i : Nat) (hi : i < l.length)
    (h2 : i < (allocReplay q e b l).length) :
    ((allocReplay q e b l)[i]).remainingStockAfterOrder =
      balanceAfter e b (l.take (i + 1)) := by
  rw [allocReplay_getElem q e l b i hi h2, balanceAfter_take_succ e b l i hi]
  rfl

theorem nextBalance_nonneg (e : Option Date) (b : Int) (o : ForecastOrder)
    (hb : 0 ≤ b) : 0 ≤ nextBalance e b o := by
  simp only [nextBalance]
  by_cases h1 : b ≥ o.forecastedQty
  · by_cases h2 : stockValid e o = true <;> simp [h1, h2] <;> omega
  · simp [h1]

theorem nextBalance_le (e : Option Date) (b : Int) (o : ForecastOrder)
    (hb : 0 ≤ b) (hq : 0 ≤ o.forecastedQty) : nextBalance e b o ≤ b := by
  simp only [nextBalance]
  by_cases h1 : b ≥ o.forecastedQty
  · by_cases h2 : stockValid e o = true <;> simp [h1, h2] <;> omega
  · simp [h1, hb]

theorem balanceAfter_nonneg (e : Option Date) (l : List ForecastOrder) :
    ∀ b, 0 ≤ b → 0 ≤ balanceAfter e b l := by
  induction l with
  | nil => intro b hb; exact hb
  | cons o rest ih => intro b hb; exact ih _ (nextBalance_nonneg e b o hb)

theorem ledgerDeductions_allocReplay (q : Int) (e : Option Date)
    (l : List ForecastOrder) :
    ∀ b, ledgerDeductions b (allocReplay q e b l) = b - balanceAfter e b l := by
  induction l with
  | nil =>
    intro b
    simp only [allocReplay, ledgerDeductions, balanceAfter]
    omega
  | cons o rest ih =>
    intro b
    have hr : (allocRow q e b o).remainingStockAfterOrder = nextBalance e b o := rfl
    simp only [allocReplay, ledgerDeductions, balanceAfter, hr, ih]
    omega

theorem allocReplay_getLast (q : Int) (e : Option Date)
    (l : List ForecastOrder) :
    ∀ b r, (allocReplay q e b l).getLast? = some r →
      r.remainingStockAfterOrder = balanceAfter e b l := by
  induction l with
  | nil => intro b r h; simp [allocReplay] at h
  | cons o rest ih =>
    intro b r h
    cases rest with
    | nil =>
      simp only [allocReplay, List.getLast?_singleton, Option.some.injEq] at h
      subst h
      rfl
    | cons o2 rest2 =>
      rw [allocReplay, allocReplay, List.getLast?_cons_cons] at h
      rw [← allocReplay] at h
      exact ih (nextBalance e b o) r h

theorem balanceAfter_zero (e : Option Date) (l : List ForecastOrder)
    (hq : ∀ o ∈ l, 0 ≤ o.forecastedQty) : balanceAfter e 0 l = 0 := by
  induction l with
  | nil => rfl
  | cons o rest ih =>
    have hqo : 0 ≤ o.forecastedQty := hq o (List.mem_cons_self o rest)
    have h0 : nextBalance e 0 o = 0 := by
      simp only [nextBalance]
      by_cases h1 : (0 : Int) ≥ o.forecastedQty
      · by_cases h2 : stockValid e o = true <;> simp [h1, h2] <;> omega
      · simp [h1]
    simp only [balanceAfter, h0]
    exact ih (fun o' ho' => hq o' (List.mem_cons_of_mem o ho'))

theorem map_resOrder_allocReplay (q : Int) (e : Option Date)
    (l : List ForecastOrder) : ∀ b, (allocReplay q e b l).map resOrder = l := by
  induction l with
  | nil => intro b; rfl
  | cons o rest ih =>
    intro b
    simp only [allocReplay, List.map_cons, ih]
    rfl

/-! ### Claim C1: the four-row decision table -/

/-- C1: for every order processed by the sequential allocation loop, with
preOrderBalance the running balance before the order and validity as defined
by the stock-expiration shelf-life check, the emitted result follows the
four-row decision table exactly: sufficient and valid gives FULFILLED,
missing 0, balance decreased by the forecast quantity; sufficient but
invalid gives INSUFFICIENT_VALIDITY, missing the full quantity, balance
unchanged; insufficient but valid gives INSUFFICIENT_QTY, missing the
shortfall, balance 0; insufficient and invalid gives
INSUFFICIENT_QTY_AND_VALIDITY, missing the full quantity, balance 0. -/
theorem alloc_decision_table (q : Int) (e : Option Date) (b : Int)
    (l : List ForecastOrder) (i : Nat) (hi : i < l.length)
    (h2 : i < (allocReplay q e b l).length) :
    (balanceAfter e b (l.take i) ≥ l[i].forecastedQty →
        stockValid e l[i] = true →
      ((allocReplay q e b l)[i]).status = AllocStatus.FULFILLED ∧
      ((allocReplay q e b l)[i]).missingQty = 0 ∧
      ((allocReplay q e b l)[i]).remainingStockAfterOrder =
        balanceAfter e b (l.take i) - l[i].forecastedQty) ∧
    (balanceAfter e b (l.take i) ≥ l[i].forecastedQty →
        stockValid e l[i] = false →
      ((allocReplay q e b l)[i]).status = AllocStatus.INSUFFICIENT_VALIDITY ∧
      ((allocReplay q e b l)[i]).missingQty = l[i].forecastedQty ∧
      ((allocReplay q e b l)[i]).remainingStockAfterOrder =
        balanceAfter e b (l.take i)) ∧
    (balanceAfter e b (l.take i) < l[i].forecastedQty →
        stockValid e l[i] = true →
      ((allocReplay q e b l)[i]).status = AllocStatus.INSUFFICIENT_QTY ∧
      ((allocReplay q e b l)[i]).missingQty =
        l[i].forecastedQty - balanceAfter e b (l.take i) ∧
      ((allocReplay q e b l)[i]).remainingStockAfterOrder = 0) ∧
    (balanceAfter e b (l.take i) < l[i].forecastedQty →
        stockValid e l[i] = false →
      ((allocReplay q e b l)[i]).status =
        AllocStatus.INSUFFICIENT_QTY_AND_VALIDITY ∧
      ((allocReplay q e b l)[i]).missingQty = l[i].forecastedQty ∧
      ((allocReplay q e b l)[i]).remainingStockAfterOrder = 0) := by
  rw [allocReplay_getElem q e l b i hi h2]
  refine ⟨?_, ?_, ?_, ?_⟩
  · intro hbge hv
    simp [allocRow, nextBalance, hbge, hv]
  · intro hbge hv
    simp [allocRow, nextBalance, hbge, hv]
  · intro hlt hv
    have hn : ¬(balanceAfter e b (l.take i) ≥ l[i].forecastedQty) := by omega
    simp [allocRow, nextBalance, hn, hv]
  · intro hlt hv
    have hn : ¬(balanceAfter e b (l.take i) ≥ l[i].forecastedQty) := by omega
    simp [allocRow, nextBalance, hn, hv]

/-- Witness for C1 at a concrete input: one order of quantity 40 against
balance 100 with valid stock is FULFILLED with remaining balance 60. -/
theorem alloc_decision_table_witness :
    ((allocReplay 100 (some ⟨2026, 1, 1⟩) 100
        [⟨"P", "C", ⟨2025, 6, 1⟩, 40, 6⟩]).get ⟨0, by decide⟩).status =
      AllocStatus.FULFILLED ∧
    ((allocReplay 100 (some ⟨2026, 1, 1⟩) 100
        [⟨"P", "C", ⟨2025, 6, 1⟩, 40, 6⟩]).get
          ⟨0, by decide⟩).remainingStockAfterOrder = 60 := by
  have h := alloc_decision_table 100 (some ⟨2026, 1, 1⟩) 100
    [⟨"P", "C", ⟨2025, 6, 1⟩, 40, 6⟩] 0 (by decide) (by decide)
  have h1 := h.1 (by decide) (by decide)
  exact ⟨h1.1, h1.2.2⟩

/-! ### Claim C4: status and missing-quantity consistency -/

/-- C4: under the data-model invariant that every forecast order has a
positive forecasted quantity, each emitted result has status FULFILLED
exactly when its missing quantity is 0, every non-FULFILLED result is
missing either its full forecasted quantity or the shortfall against the
pre-order balance, and the missing quantity is never negative. -/
theorem status_missing_consistency (q : Int) (e : Option Date) (b : Int)
    (l : List ForecastOrder) (hq : ∀ o ∈ l, 0 < o.forecastedQty)
    (i : Nat) (hi : i < l.length)
    (h2 : i < (allocReplay q e b l).length) :
    (((allocReplay q e b l)[i]).status = AllocStatus.FULFILLED ↔
      ((allocReplay q e b l)[i]).missingQty = 0) ∧
    (((allocReplay q e b l)[i]).status ≠ AllocStatus.FULFILLED →
      ((allocReplay q e b l)[i]).missingQty =
        ((allocReplay q e b l)[i]).forecastedQty ∨
      ((allocReplay q e b l)[i]).missingQty =
        ((allocReplay q e b l)[i]).forecastedQty -
          balanceAfter e b (l.take i)) ∧
    0 ≤ ((allocReplay q e b l)[i]).missingQty := by
  rw [allocReplay_getElem q e l b i hi h2]
  have hqi : 0 < l[i].forecastedQty := hq _ (List.getElem_mem hi)
  by_cases hbge : balanceAfter e b (l.take i) ≥ l[i].forecastedQty <;>
    by_cases hv : stockValid e l[i] = true <;>
    simp [allocRow, nextBalance, hbge, hv] <;>
    omega

/-- Witness for C4 at a concrete input with positive forecast quantity. -/
theorem status_missing_consistency_witness :
    (((allocReplay 100 (some ⟨2026, 1, 1⟩) 100
        [⟨"P", "C", ⟨2025, 6, 1⟩, 40, 6⟩]).get ⟨0, by decide⟩).status =
      AllocStatus.FULFILLED ↔
    ((allocReplay 100 (some ⟨2026, 1, 1⟩) 100
        [⟨"P", "C", ⟨2025, 6, 1⟩, 40, 6⟩]).get ⟨0, by decide⟩).missingQty = 0) := by
  have h := status_missing_consistency 100 (some ⟨2026, 1, 1⟩) 100
    [⟨"P", "C", ⟨2025, 6, 1⟩, 40, 6⟩] (by decide) 0 (by decide) (by decide)
  exact h.1

/-! ### Claim C5: zero-quantity orders -/

/-- C5 counterexample: a forecast order with forecastedQty 0 whose stock
validity check fails (expiry absent) is emitted with status
INSUFFICIENT_VALIDITY, not FULFILLED, refuting the claim that the status is
FULFILLED regardless of validity. -/
theorem zero_qty_order_counterexample :
    (allocReplay 5 none 5 [⟨"P", "C", ⟨2025, 6, 1⟩, 0, 6⟩]).map
        AllocationResult.status = [AllocStatus.INSUFFICIENT_VALIDITY] ∧
    AllocStatus.INSUFFICIENT_VALIDITY ≠ AllocStatus.FULFILLED := by
  decide

/-- C5 amended: for every forecast order with forecastedQty 0 processed at a
non-negative initial balance, the loop emits missingQty 0 and leaves the
running balance unchanged; the status is FULFILLED when the stock validity
check passes and INSUFFICIENT_VALIDITY when it fails (the code does not
short-circuit on validity). -/
theorem zero_qty_order_amended (q : Int) (e : Option Date) (b : Int)
    (l : List ForecastOrder) (hb : 0 ≤ b) (i : Nat) (hi : i < l.length)
    (h2 : i < (allocReplay q e b l).length)
    (hzero : l[i].forecastedQty = 0) :
    ((allocReplay q e b l)[i]).missingQty = 0 ∧
    ((allocReplay q e b l)[i]).remainingStockAfterOrder =
      balanceAfter e b (l.take i) ∧
    (stockValid e l[i] = true →
      ((allocReplay q e b l)[i]).status = AllocStatus.FULFILLED) ∧
    (stockValid e l[i] = false →
      ((allocReplay q e b l)[i]).status =
        AllocStatus.INSUFFICIENT_VALIDITY) := by
  rw [allocReplay_getElem q e l b i hi h2]
  have hpre : 0 ≤ balanceAfter e b (l.take i) :=
    balanceAfter_nonneg e (l.take i) b hb
  have hbge : balanceAfter e b (l.take i) ≥ l[i].forecastedQty := by omega
  by_cases hv : stockValid e l[i] = true <;>
    simp [allocRow, nextBalance, hbge, hv, hzero] <;>
    omega

/-- Witness for the amended C5: a zero-quantity order with valid stock is
FULFILLED with missing 0 and unchanged balance. -/
theorem zero_qty_order_amended_witness :
    ((allocReplay 5 (some ⟨2026, 1, 1⟩) 5
        [⟨"P", "C", ⟨2025, 6, 1⟩, 0, 6⟩]).get ⟨0, by decide⟩).missingQty = 0 ∧
    ((allocReplay 5 (some ⟨2026, 1, 1⟩) 5
        [⟨"P", "C", ⟨2025, 6, 1⟩, 0, 6⟩]).get
          ⟨0, by decide⟩).remainingStockAfterOrder = 5 := by
  have h := zero_qty_order_amended 5 (some ⟨2026, 1, 1⟩) 5
    [⟨"P", "C", ⟨2025, 6, 1⟩, 0, 6⟩] (by decide) 0 (by decide) (by decide)
    (by decide)
  exact ⟨h.1, h.2.1⟩

/-! ### Claim C6: shelf-life text parsing -/

/-- C6: parse_shelf_life agrees on every input with the cascade described by
the spec (12 if the lowercased text contains "12 months" or "1 year",
checked first, else 6 for "6 months", else 3 for "3 months", else 6, with
missing input giving 6); the source's extra disjunct for "not less than 12
months" is redundant because that phrase contains "12 months".  The quoted
examples evaluate as the claim states, and the function is total (it never
raises). -/
theorem shelf_life_parsing (t : Option String) :
    parse_shelf_life t = parse_shelf_life_spec t ∧
    parse_shelf_life (some "Not less than 12 months") = 12 ∧
    parse_shelf_life (some "approx 6 months shelf life") = 6 ∧
    parse_shelf_life (some "see attachment") = 6 ∧
    parse_shelf_life none = 6 := by
  refine ⟨?_, by decide, by decide, by decide, rfl⟩
  cases t with
  | none => rfl
  | some s =>
    simp only [parse_shelf_life, parse_shelf_life_spec]
    by_cases hc : containsSub (lowerStr s) "not less than 12 months" = true
    · have h12 : containsSub (lowerStr s) "12 months" = true := by
        have hsub : listSub "12 months".data
            "not less than 12 months".data = true := by decide
        exact listSub_trans hsub hc
      simp [h12]
    · rw [Bool.not_eq_true] at hc
      simp [hc]

/-! ### Helpers for allocProduct-level claims -/

theorem allocProduct_eq_some (c : List StockPosition) (p : String)
    (orders : List ForecastOrder) (sp : StockPosition)
    (hfind : c.find? (fun s => s.productId == p) = some sp) :
    allocProduct c p orders =
      allocReplay sp.availableQuantity sp.earliestExpiration
        sp.availableQuantity
        (orders.mergeSort (fun a b => dateLE a.shipDate b.shipDate)) := by
  simp [allocProduct, hfind]

theorem allocProduct_eq_none (c : List StockPosition) (p : String)
    (orders : List ForecastOrder)
    (hfind : c.find? (fun s => s.productId == p) = none) :
    allocProduct c p orders =
      allocReplay 0 none 0
        (orders.mergeSort (fun a b => dateLE a.shipDate b.shipDate)) := by
  simp [allocProduct, hfind]

theorem allocReplay_monotone_core (q : Int) (e : Option Date) (b : Int)
    (l : List ForecastOrder) (hb : 0 ≤ b)
    (hq : ∀ o ∈ l, 0 ≤ o.forecastedQty) (i : Nat)
    (a c : AllocationResult)
    (ha : (allocReplay q e b l)[i]? = some a)
    (hc : (allocReplay q e b l)[i + 1]? = some c) :
    c.remainingStockAfterOrder ≤ a.remainingStockAfterOrder := by
  have hlen := length_allocReplay q e l b
  obtain ⟨h1, ha2⟩ := List.getElem?_eq_some_iff.mp ha
  obtain ⟨h2, hc2⟩ := List.getElem?_eq_some_iff.mp hc
  have hi1 : i < l.length := by omega
  have hi2 : i + 1 < l.length := by omega
  have hra := allocReplay_remaining q e b l i hi1 h1
  have hrc := allocReplay_remaining q e b l (i + 1) hi2 h2
  rw [ha2] at hra
  rw [hc2] at hrc
  rw [hra, hrc, balanceAfter_take_succ e b l (i + 1) hi2]
  exact nextBalance_le e _ _ (balanceAfter_nonneg e _ b hb)
    (hq _ (List.getElem_mem hi2))

theorem allocReplay_no_stock : ∀ (l : List ForecastOrder),
    (∀ o ∈ l, 0 < o.forecastedQty) →
    ∀ r ∈ allocReplay 0 none 0 l,
      r.initialStockQuantity = 0 ∧ r.stockExpiration = none ∧
      r.status = AllocStatus.INSUFFICIENT_QTY_AND_VALIDITY ∧
      r.missingQty = r.forecastedQty ∧ r.remainingStockAfterOrder = 0 := by
  intro l
  induction l with
  | nil => intro _ r hr; simp [allocReplay] at hr
  | cons o rest ih =>
    intro hq r hr
    have hqo : 0 < o.forecastedQty := hq o (List.mem_cons_self o rest)
    have hnge : ¬((0 : Int) ≥ o.forecastedQty) := by omega
    have hnb : nextBalance none 0 o = 0 := by simp [nextBalance, hnge]
    rw [allocReplay] at hr
    rcases List.mem_cons.mp hr with h | h
    · subst h
      refine ⟨rfl, rfl, ?_, ?_, ?_⟩
      · simp [allocRow, hnge, stockValid]
      · simp [allocRow, hnge, stockValid]
      · simp [allocRow, hnb]
    · rw [hnb] at h
      exact ih (fun o2 ho2 => hq o2 (List.mem_cons_of_mem o ho2)) r h

/-! ### Claim C2: conservation -/

/-- C2: for a product with a consolidated stock row of non-negative
available quantity, the sum over its ledger of the per-order deductions
(pre-order balance minus post-order balance) is at most the initial
available quantity, and the remaining stock recorded on the last order
equals the initial balance minus the total deduction. -/
theorem stock_conservation (consolidated : List StockPosition) (p : String)
    (orders : List ForecastOrder) (sp : StockPosition)
    (hfind : consolidated.find? (fun s => s.productId == p) = some sp)
    (hq0 : 0 ≤ sp.availableQuantity) :
    ledgerDeductions sp.availableQuantity
        (allocProduct consolidated p orders) ≤ sp.availableQuantity ∧
    ∀ r, (allocProduct consolidated p orders).getLast? = some r →
      r.remainingStockAfterOrder =
        sp.availableQuantity -
          ledgerDeductions sp.availableQuantity
            (allocProduct consolidated p orders) := by
  rw [allocProduct_eq_some consolidated p orders sp hfind]
  constructor
  · rw [ledgerDeductions_allocReplay]
    have := balanceAfter_nonneg sp.earliestExpiration
      (orders.mergeSort (fun a b => dateLE a.shipDate b.shipDate))
      sp.availableQuantity hq0
    omega
  · intro r hr
    rw [ledgerDeductions_allocReplay]
    have hlast := allocReplay_getLast sp.availableQuantity
      sp.earliestExpiration
      (orders.mergeSort (fun a b => dateLE a.shipDate b.shipDate))
      sp.availableQuantity r hr
    omega

/-- Witness for C2 at a concrete input: one product with stock 100 and one
order of quantity 40. -/
theorem stock_conservation_witness :
    ledgerDeductions 100 (allocProduct [⟨"P", 100, some ⟨2026, 1, 1⟩⟩] "P"
        [⟨"P", "C", ⟨2025, 6, 1⟩, 40, 6⟩]) ≤ 100 ∧
    ∀ r, (allocProduct [⟨"P", 100, some ⟨2026, 1, 1⟩⟩] "P"
        [⟨"P", "C", ⟨2025, 6, 1⟩, 40, 6⟩]).getLast? = some r →
      r.remainingStockAfterOrder =
        100 - ledgerDeductions 100 (allocProduct
          [⟨"P", 100, some ⟨2026, 1, 1⟩⟩] "P"
          [⟨"P", "C", ⟨2025, 6, 1⟩, 40, 6⟩]) :=
  stock_conservation [⟨"P", 100, some ⟨2026, 1, 1⟩⟩] "P"
    [⟨"P", "C", ⟨2025, 6, 1⟩, 40, 6⟩] ⟨"P", 100, some ⟨2026, 1, 1⟩⟩
    rfl (by decide)

/-! ### Claim C3: monotonic depletion -/

/-- C3: assuming non-negative consolidated stock quantities and non-negative
forecasted quantities, the remaining stock recorded on consecutive orders of
a product's sorted ledger is non-increasing. -/
theorem monotonic_depletion (consolidated : List StockPosition) (p : String)
    (orders : List ForecastOrder)
    (hstock : ∀ s ∈ consolidated, 0 ≤ s.availableQuantity)
    (hq : ∀ o ∈ orders, 0 ≤ o.forecastedQty) (i : Nat)
    (a c : AllocationResult)
    (ha : (allocProduct consolidated p orders)[i]? = some a)
    (hc : (allocProduct consolidated p orders)[i + 1]? = some c) :
    c.remainingStockAfterOrder ≤ a.remainingStockAfterOrder := by
  have hq2 : ∀ o ∈ orders.mergeSort
      (fun a b => dateLE a.shipDate b.shipDate), 0 ≤ o.forecastedQty :=
    fun o ho => hq o (List.mem_mergeSort.mp ho)
  rcases hfind : consolidated.find? (fun s => s.productId == p) with _ | sp
  · rw [allocProduct_eq_none consolidated p orders hfind] at ha hc
    exact allocReplay_monotone_core 0 none 0 _ le_rfl hq2 i a c ha hc
  · rw [allocProduct_eq_some consolidated p orders sp hfind] at ha hc
    have hsp : 0 ≤ sp.availableQuantity :=
      hstock sp (List.mem_of_find?_eq_some hfind)
    exact allocReplay_monotone_core _ _ _ _ hsp hq2 i a c ha hc

/-- Witness for C3: two sorted orders against stock 100, the second
exhausting the balance. -/
theorem monotonic_depletion_witness :
    (60 : Int) ≥ 0 ∧
    (0 : Int) ≤ 60 := by
  have hsort : ([⟨"P", "C", ⟨2025, 6, 1⟩, 40, 6⟩,
      ⟨"P", "C", ⟨2025, 7, 1⟩, 80, 6⟩] :
        List ForecastOrder).mergeSort
          (fun a b => dateLE a.shipDate b.shipDate) =
      [⟨"P", "C", ⟨2025, 6, 1⟩, 40, 6⟩, ⟨"P", "C", ⟨2025, 7, 1⟩, 80, 6⟩] :=
    List.mergeSort_of_sorted (by decide)
  have ha : (allocProduct [⟨"P", 100, some ⟨2026, 1, 1⟩⟩] "P"
      [⟨"P", "C", ⟨2025, 6, 1⟩, 40, 6⟩,
       ⟨"P", "C", ⟨2025, 7, 1⟩, 80, 6⟩])[0]? =
      some ⟨"P", "C", ⟨2025, 6, 1⟩, 40, 6, 100, some ⟨2026, 1, 1⟩,
        AllocStatus.FULFILLED, 0, 60⟩ := by
    rw [allocProduct_eq_some [⟨"P", 100, some ⟨2026, 1, 1⟩⟩] "P"
      [⟨"P", "C", ⟨2025, 6, 1⟩, 40, 6⟩, ⟨"P", "C", ⟨2025, 7, 1⟩, 80, 6⟩]
      ⟨"P", 100, some ⟨2026, 1, 1⟩⟩ rfl, hsort]
    decide
  have hc : (allocProduct [⟨"P", 100, some ⟨2026, 1, 1⟩⟩] "P"
      [⟨"P", "C", ⟨2025, 6, 1⟩, 40, 6⟩,
       ⟨"P", "C", ⟨2025, 7, 1⟩, 80, 6⟩])[0 + 1]? =
      some ⟨"P", "C", ⟨2025, 7, 1⟩, 80, 6, 100, some ⟨2026, 1, 1⟩,
        AllocStatus.INSUFFICIENT_QTY, 20, 0⟩ := by
    rw [allocProduct_eq_some [⟨"P", 100, some ⟨2026, 1, 1⟩⟩] "P"
      [⟨"P", "C", ⟨2025, 6, 1⟩, 40, 6⟩, ⟨"P", "C", ⟨2025, 7, 1⟩, 80, 6⟩]
      ⟨"P", 100, some ⟨2026, 1, 1⟩⟩ rfl, hsort]
    decide
  have h := monotonic_depletion [⟨"P", 100, some ⟨2026, 1, 1⟩⟩] "P"
    [⟨"P", "C", ⟨2025, 6, 1⟩, 40, 6⟩, ⟨"P", "C", ⟨2025, 7, 1⟩, 80, 6⟩]
    (by decide) (by decide) 0 _ _ ha hc
  exact ⟨by omega, h⟩

/-! ### Claim C7: product with no stock row -/

/-- C7: a product that has forecast orders but no consolidated stock row is
initialized with balance 0 and absent expiration (not an error), and every
one of its orders with positive forecasted quantity is emitted with status
INSUFFICIENT_QTY_AND_VALIDITY, missing its full forecasted quantity, and
remaining stock 0. -/
theorem missing_stock_row_default (consolidated : List StockPosition)
    (p : String) (orders : List ForecastOrder)
    (hnone : consolidated.find? (fun s => s.productId == p) = none)
    (hq : ∀ o ∈ orders, 0 < o.forecastedQty) :
    ∀ r ∈ allocProduct consolidated p orders,
      r.initialStockQuantity = 0 ∧ r.stockExpiration = none ∧
      r.status = AllocStatus.INSUFFICIENT_QTY_AND_VALIDITY ∧
      r.missingQty = r.forecastedQty ∧
      r.remainingStockAfterOrder = 0 := by
  rw [allocProduct_eq_none consolidated p orders hnone]
  exact allocReplay_no_stock _
    (fun o ho => hq o (List.mem_mergeSort.mp ho))

/-- Witness for C7: a single order for a product absent from the stock
data, evaluated at the first ledger row. -/
theorem missing_stock_row_default_witness :
    ((allocProduct [] "P" [⟨"P", "C", ⟨2025, 6, 1⟩, 10, 6⟩]).get
        ⟨0, by
          rw [allocProduct_eq_none [] "P"
            [⟨"P", "C", ⟨2025, 6, 1⟩, 10, 6⟩] rfl,
            List.mergeSort_singleton]
          decide⟩).status =
      AllocStatus.INSUFFICIENT_QTY_AND_VALIDITY ∧
    ((allocProduct [] "P" [⟨"P", "C", ⟨2025, 6, 1⟩, 10, 6⟩]).get
        ⟨0, by
          rw [allocProduct_eq_none [] "P"
            [⟨"P", "C", ⟨2025, 6, 1⟩, 10, 6⟩] rfl,
            List.mergeSort_singleton]
          decide⟩).remainingStockAfterOrder = 0 := by
  have h := missing_stock_row_default [] "P"
    [⟨"P", "C", ⟨2025, 6, 1⟩, 10, 6⟩] rfl (by decide)
  have hlen : 0 < (allocProduct [] "P"
      [⟨"P", "C", ⟨2025, 6, 1⟩, 10, 6⟩]).length := by
    rw [allocProduct_eq_none [] "P"
      [⟨"P", "C", ⟨2025, 6, 1⟩, 10, 6⟩] rfl, List.mergeSort_singleton]
    decide
  have hm := h _ (List.get_mem _ 0 hlen)
  exact ⟨hm.2.2.1, hm.2.2.2.2⟩

/-! ### Claim C8: determinism -/

/-- C8: the allocation engine is a deterministic function of its inputs: two
runs on equal stock positions and equal forecast orders produce equal
ledgers (the embedding is pure, the grouping and the sort are deterministic
functions). -/
theorem engine_deterministic (s1 s2 : List StockPosition)
    (f1 f2 : List ForecastOrder) (hs : s1 = s2) (hf : f1 = f2) :
    runEngine s1 f1 = runEngine s2 f2 := by
  subst hs
  subst hf
  rfl

/-- Witness for C8 at a concrete input. -/
theorem engine_deterministic_witness :
    runEngine [⟨"P", 100, some ⟨2026, 1, 1⟩⟩]
        [⟨"P", "C", ⟨2025, 6, 1⟩, 40, 6⟩] =
      runEngine [⟨"P", 100, some ⟨2026, 1, 1⟩⟩]
        [⟨"P", "C", ⟨2025, 6, 1⟩, 40, 6⟩] :=
  engine_deterministic _ _ _ _ rfl rfl

/-! ### Claim C10: the zero balance is absorbing -/

/-- C10: once the loop emits an order with status INSUFFICIENT_QTY or
INSUFFICIENT_QTY_AND_VALIDITY, the running balance is 0 from that point on
(given non-negative forecasted quantities): every later order of the
sequence has remaining stock 0 and, if its forecasted quantity is positive,
is missing its full forecasted quantity. -/
theorem absorbing_zero_balance (q : Int) (e : Option Date) (b : Int)
    (l : List ForecastOrder) (hq : ∀ o ∈ l, 0 ≤ o.forecastedQty)
    (i j : Nat) (hij : i < j) (a c : AllocationResult)
    (ha : (allocReplay q e b l)[i]? = some a)
    (hc : (allocReplay q e b l)[j]? = some c)
    (hstat : a.status = AllocStatus.INSUFFICIENT_QTY ∨
      a.status = AllocStatus.INSUFFICIENT_QTY_AND_VALIDITY) :
    c.remainingStockAfterOrder = 0 ∧
    (0 < c.forecastedQty → c.missingQty = c.forecastedQty) := by
  have hlen := length_allocReplay q e l b
  obtain ⟨hia, ha2⟩ := List.getElem?_eq_some_iff.mp ha
  obtain ⟨hjc, hc2⟩ := List.getElem?_eq_some_iff.mp hc
  have hil : i < l.length := by omega
  have hjl : j < l.length := by omega
  have hzero : balanceAfter e b (l.take (i + 1)) = 0 := by
    have hrem := allocReplay_remaining q e b l i hil hia
    rw [ha2] at hrem
    have hga := allocReplay_getElem q e l b i hil hia
    rw [ha2] at hga
    by_cases hbge : balanceAfter e b (l.take i) ≥ l[i].forecastedQty
    · exfalso
      rcases hstat with h | h <;> rw [hga] at h <;>
        by_cases hv : stockValid e l[i] = true <;>
        simp [allocRow, hbge, hv] at h
    · rw [← hrem, hga]
      simp [allocRow, nextBalance, hbge]
  have hprej : balanceAfter e b (l.take j) = 0 := by
    have hj : j = (i + 1) + (j - (i + 1)) := by omega
    have hsplit : l.take j =
        l.take (i + 1) ++ (l.drop (i + 1)).take (j - (i + 1)) := by
      conv_lhs => rw [hj]
      exact List.take_add l (i + 1) (j - (i + 1))
    rw [hsplit, balanceAfter_append, hzero]
    exact balanceAfter_zero e _ (fun o ho =>
      hq o (List.mem_of_mem_drop (List.mem_of_mem_take ho)))
  have hgc := allocReplay_getElem q e l b j hjl hjc
  rw [hc2] at hgc
  have hqj : 0 ≤ l[j].forecastedQty := hq _ (List.getElem_mem hjl)
  constructor
  · rw [hgc]
    show nextBalance e (balanceAfter e b (l.take j)) l[j] = 0
    rw [hprej]
    simp only [nextBalance]
    by_cases h1 : (0 : Int) ≥ l[j].forecastedQty
    · by_cases hv : stockValid e l[j] = true <;> simp [h1, hv] <;> omega
    · simp [h1]
  · intro hpos
    rw [hgc] at hpos ⊢
    simp only [allocRow] at hpos
    have hlt : ¬(balanceAfter e b (l.take j) ≥ l[j].forecastedQty) := by
      rw [hprej]; omega
    by_cases hv : stockValid e l[j] = true <;>
      simp [allocRow, hlt, hv, hprej] <;> omega

/-- Witness for C10: two orders against balance 5 with no expiration; the
first is INSUFFICIENT_QTY_AND_VALIDITY and the second sees balance 0. -/
theorem absorbing_zero_balance_witness :
    (⟨"P", "C2", ⟨2025, 7, 1⟩, 7, 6, 5, none,
        AllocStatus.INSUFFICIENT_QTY_AND_VALIDITY, 7, 0⟩ :
      AllocationResult).remainingStockAfterOrder = 0 ∧
    (0 < (⟨"P", "C2", ⟨2025, 7, 1⟩, 7, 6, 5, none,
        AllocStatus.INSUFFICIENT_QTY_AND_VALIDITY, 7, 0⟩ :
      AllocationResult).forecastedQty →
      (⟨"P", "C2", ⟨2025, 7, 1⟩, 7, 6, 5, none,
          AllocStatus.INSUFFICIENT_QTY_AND_VALIDITY, 7, 0⟩ :
        AllocationResult).missingQty =
        (⟨"P", "C2", ⟨2025, 7, 1⟩, 7, 6, 5, none,
            AllocStatus.INSUFFICIENT_QTY_AND_VALIDITY, 7, 0⟩ :
          AllocationResult).forecastedQty) :=
  absorbing_zero_balance 5 none 5
    [⟨"P", "C1", ⟨2025, 6, 1⟩, 10, 6⟩, ⟨"P", "C2", ⟨2025, 7, 1⟩, 7, 6⟩]
    (by decide) 0 1 (by decide)
    ⟨"P", "C1", ⟨2025, 6, 1⟩, 10, 6, 5, none,
      AllocStatus.INSUFFICIENT_QTY_AND_VALIDITY, 10, 0⟩
    ⟨"P", "C2", ⟨2025, 7, 1⟩, 7, 6, 5, none,
      AllocStatus.INSUFFICIENT_QTY_AND_VALIDITY, 7, 0⟩
    (by decide) (by decide) (by decide)

/-! ### Claim C9: one result per order -/

theorem flatMap_congr_mem {α β : Type} (l : List α) {f g : α → List β}
    (h : ∀ a ∈ l, f a = g a) : l.flatMap f = l.flatMap g := by
  induction l with
  | nil => rfl
  | cons a t ih =>
    simp only [List.flatMap_cons]
    rw [h a (List.mem_cons_self a t),
      ih (fun x hx => h x (List.mem_cons_of_mem a hx))]

theorem flatMap_perm_mem {α β : Type} (l : List α) {f g : α → List β}
    (h : ∀ a ∈ l, List.Perm (f a) (g a)) :
    List.Perm (l.flatMap f) (l.flatMap g) := by
  induction l with
  | nil => simp
  | cons a t ih =>
    simp only [List.flatMap_cons]
    exact List.Perm.append (h a (List.mem_cons_self a t))
      (ih (fun x hx => h x (List.mem_cons_of_mem a hx)))

theorem map_resOrder_allocProduct (c : List StockPosition) (p : String)
    (g : List ForecastOrder) :
    (allocProduct c p g).map resOrder =
      g.mergeSort (fun a b => dateLE a.shipDate b.shipDate) := by
  rcases hfind : c.find? (fun s => s.productId == p) with _ | sp
  · rw [allocProduct_eq_none c p g hfind]
    exact map_resOrder_allocReplay _ _ _ _
  · rw [allocProduct_eq_some c p g sp hfind]
    exact map_resOrder_allocReplay _ _ _ _

theorem groups_perm : ∀ (ps : List String) (os : List ForecastOrder),
    ps.Nodup → (∀ o ∈ os, o.productId ∈ ps) →
    List.Perm
      (ps.flatMap (fun p => os.filter (fun o => o.productId == p))) os := by
  intro ps
  induction ps with
  | nil =>
    intro os _ hmem
    cases os with
    | nil => simp
    | cons o t =>
      exact absurd (hmem o (List.mem_cons_self o t))
        (List.not_mem_nil o.productId)
  | cons p ps ih =>
    intro os hnd hmem
    obtain ⟨hps, hnd2⟩ := List.nodup_cons.mp hnd
    have hstep :
        ps.flatMap (fun q => os.filter (fun o => o.productId == q)) =
        ps.flatMap (fun q =>
          (os.filter (fun o => !(o.productId == p))).filter
            (fun o => o.productId == q)) := by
      apply flatMap_congr_mem
      intro q hq
      rw [List.filter_filter]
      apply List.filter_congr
      intro o _
      by_cases h : o.productId = q
      · have hqp : q ≠ p := fun hh => hps (hh ▸ hq)
        have hqp2 : (o.productId == p) = false := by
          rw [h]
          exact beq_eq_false_iff_ne.mpr hqp
        simp [h, hqp2, hqp]
      · have h2 : (o.productId == q) = false := beq_eq_false_iff_ne.mpr h
        simp [h2]
    have hmid := ih (os.filter (fun o => !(o.productId == p))) hnd2 ?cover
    case cover =>
      intro o ho
      obtain ⟨hos, hne⟩ := List.mem_filter.mp ho
      rcases List.mem_cons.mp (hmem o hos) with h | h
      · exfalso
        simp [h] at hne
      · exact h
    have hassemble :
        (p :: ps).flatMap (fun q => os.filter (fun o => o.productId == q)) =
        os.filter (fun o => o.productId == p) ++
          ps.flatMap (fun q => os.filter (fun o => o.productId == q)) := by
      simp [List.flatMap_cons]
    rw [hassemble, hstep]
    exact List.Perm.trans (List.Perm.append_left _ hmid)
      (List.filter_append_perm (fun o => o.productId == p) os)

/-- C9: the output ledger contains exactly one result per input forecast
order: the projection of the ledger back onto the forecast-order fields is a
permutation of the input order list (so nothing is dropped or duplicated),
the ledger has exactly as many rows as there are orders, and an empty
forecast input produces an empty ledger rather than a failure. -/
theorem ledger_one_per_order (consolidated : List StockPosition)
    (orders : List ForecastOrder) :
    (runEngine consolidated orders).length = orders.length ∧
    List.Perm ((runEngine consolidated orders).map resOrder) orders ∧
    runEngine consolidated [] = [] := by
  have hmap : (runEngine consolidated orders).map resOrder =
      (productKeys orders).flatMap (fun p =>
        (orders.filter (fun o => o.productId == p)).mergeSort
          (fun a b => dateLE a.shipDate b.shipDate)) := by
    rw [runEngine, List.map_flatMap]
    exact flatMap_congr_mem _
      (fun p _ => map_resOrder_allocProduct consolidated p _)
  have hnodup : (productKeys orders).Nodup := by
    have hp := List.mergeSort_perm
      ((orders.map (fun o => o.productId)).dedup)
      (fun a b => !(decide (b < a)))
    exact hp.nodup_iff.mpr (List.nodup_dedup _)
  have hcover : ∀ o ∈ orders, o.productId ∈ productKeys orders := by
    intro o ho
    simp only [productKeys, List.mem_mergeSort]
    exact List.mem_dedup.mpr (List.mem_map_of_mem _ ho)
  have hperm : List.Perm ((runEngine consolidated orders).map resOrder)
      orders := by
    rw [hmap]
    exact List.Perm.trans
      (flatMap_perm_mem _ (fun p _ => List.mergeSort_perm _ _))
      (groups_perm (productKeys orders) orders hnodup hcover)
  refine ⟨?_, hperm, ?_⟩
  · have h := hperm.length_eq
    rwa [List.length_map] at h
  · simp [runEngine, productKeys]

end SalesForecast
